import Mathlib

/-!
# go-redis-sample: a verification development of `main.go`

The program is a thin HTTP layer over a two-tier cache.  The embedding follows
`main.go` function by function:

* Go strings are byte sequences (`GoString`), Go `error` values are `Option GoError`
  (`none` is `nil`);
* the third-party cache object (`*cache.Cache`) is a record of three operations over an
  explicit state, so the repository and the handlers are stated for every cache
  behaviour; `mapCache` is the key-to-value map instance;
* `strconv.Atoi` and `fmt.Sprintf("data_%d", _)` are transcribed from the Go standard
  library, with machine integers as `Nat`/`Int` and explicit wrap-around.
-/

namespace GoRedisSample

/-! ## Strings and errors -/

/-- A Go string: an immutable sequence of bytes. -/
abbrev GoString := List Nat

/-- The bytes of an ASCII literal. -/
def bytes (s : String) : GoString := s.toList.map Char.toNat

/-- The Go `error` values that occur in the program. `nil` is `none : Option GoError`. -/
inductive GoError where
  /-- The sentinel `cache.ErrCacheMiss`. -/
  | ErrCacheMiss
  /-- A `*strconv.NumError` wrapping `strconv.ErrSyntax`. -/
  | ErrSyntax
  /-- A `*strconv.NumError` wrapping `strconv.ErrRange`. -/
  | ErrRange
  /-- Any other error, identified by its message. -/
  | errorString (msg : GoString)
  deriving DecidableEq, Repr

/-! ## `fmt.Sprintf("data_%d", id)` -/

/-- The digit loop of `fmt.(*fmt).fmtInteger` in base 10: digits are produced from the least
significant one and written in front of what is already in the buffer. -/
def fmtDigits : Nat → Nat → GoString → GoString
  | 0, _, buf => buf
  | fuel + 1, u, buf =>
    if u ≥ 10 then fmtDigits fuel (u / 10) ((48 + (u - u / 10 * 10)) :: buf)
    else (48 + u) :: buf

/-- The decimal digits of an unsigned number. -/
def fmtNat (u : Nat) : GoString := fmtDigits (u + 1) u []

/-- The verb `%d` applied to a Go `int`: a minus sign for a negative number, then the
digits of its magnitude. -/
def fmtInt (v : Int) : GoString :=
  if v < 0 then 45 :: fmtNat v.natAbs else fmtNat v.natAbs

/-- The key expression `fmt.Sprintf("data_%d", id)` shared by `STORE`, `GET`, `DELETE`. -/
def Sprintf_data_d (id : Int) : GoString := bytes "data_" ++ fmtInt id

/-! ## The cache object -/

/-- A Go `time.Duration`: a signed count of nanoseconds. -/
abbrev Duration := Int

/-- The record `main.go` declares as `Config`. -/
structure Config where
  RedisHost : GoString
  RedisPassword : GoString
  RedisPort : Int
  RedisDatabase : Int
  RedisPoolSize : Int
  RedisTTL : Duration
  deriving DecidableEq, Repr

/-- The fields of `cache.Item` that `STORE` fills in. -/
structure Item where
  Key : GoString
  Value : GoString
  TTL : Duration
  deriving DecidableEq, Repr

/-- What a lookup in the cache finds. -/
inductive Lookup where
  /-- The key is present with this value. -/
  | hit (v : GoString)
  /-- The key is absent or expired. -/
  | miss
  /-- The lookup failed for another reason. -/
  | fail (msg : GoString)
  deriving DecidableEq, Repr

/-- The cache object `r.redisClient.Cache()` over a state `σ`: whatever the two-tier cache
does on `Set`, on a lookup and on `Delete`. -/
structure Cache (σ : Type) where
  Set : σ → Item → σ × Option GoError
  Lookup : σ → GoString → σ × Lookup
  Delete : σ → GoString → σ × Option GoError

/-- The call `Cache().Get(c, key, value)`: on a hit the found value is written through the
pointer `value` and `nil` is returned; otherwise the pointee is left as it was and the
error is `cache.ErrCacheMiss` or the failure. The result is the new state, the pointee
after the call, and the returned error. -/
def Cache.Get {σ : Type} (c : Cache σ) (st : σ) (key : GoString) (value : GoString) :
    σ × GoString × Option GoError :=
  match c.Lookup st key with
  | (st', Lookup.hit v) => (st', v, none)
  | (st', Lookup.miss) => (st', value, some GoError.ErrCacheMiss)
  | (st', Lookup.fail msg) => (st', value, some (GoError.errorString msg))

/-- A cache that is a key-to-value map without expiry. -/
def mapCache : Cache (GoString → Option GoString) where
  Set := fun st item => (fun k => if k = item.Key then some item.Value else st k, none)
  Lookup := fun st key =>
    match st key with
    | some v => (st, Lookup.hit v)
    | none => (st, Lookup.miss)
  Delete := fun st key => (fun k => if k = key then none else st k, none)

/-- A cache whose backing store is unreachable: every operation fails with `timeout` and
leaves the state alone. -/
def failingCache : Cache (GoString → Option GoString) where
  Set := fun st _ => (st, some (GoError.errorString (bytes "timeout")))
  Lookup := fun st _ => (st, Lookup.fail (bytes "timeout"))
  Delete := fun st _ => (st, some (GoError.errorString (bytes "timeout")))

/-- The map with no entries. -/
def emptyMap : GoString → Option GoString := fun _ => none

/-! ## The repository -/

/-- `func (r *redisRepository) STORE(c context.Context, id int, data string)`:
the error of `Set` is dropped. -/
def redisRepository.STORE {σ : Type} (r : Cache σ) (cfg : Config) (st : σ) (id : Int)
    (data : GoString) : σ :=
  (r.Set st { Key := Sprintf_data_d id, Value := data, TTL := cfg.RedisTTL }).1

/-- `func (r *redisRepository) GET(c context.Context, id int) (string, error)`. -/
def redisRepository.GET {σ : Type} (r : Cache σ) (st : σ) (id : Int) :
    σ × GoString × Option GoError :=
  let data : GoString := []
  match r.Get st (Sprintf_data_d id) data with
  | (st', data', err) =>
    if err ≠ none ∧ err ≠ some GoError.ErrCacheMiss then (st', [], err)
    else (st', data', none)

/-- `func (r *redisRepository) DELETE(c context.Context, id int) error`. -/
def redisRepository.DELETE {σ : Type} (r : Cache σ) (st : σ) (id : Int) :
    σ × Option GoError :=
  match r.Delete st (Sprintf_data_d id) with
  | (st', err) =>
    if err ≠ none ∧ err ≠ some GoError.ErrCacheMiss then (st', err)
    else (st', none)

/-! ## `strconv.Atoi` -/

/-- A machine integer of `w` bits read as a signed number (two's complement). -/
def wrapInt (w : Nat) (x : Int) : Int := (x + 2 ^ (w - 1)) % 2 ^ w - 2 ^ (w - 1)

/-- The conversion `int64(u)` of a `uint64`. -/
def int64 (u : Nat) : Int := wrapInt 64 (u : Int)

/-- The `byte` helper `lower(c)` of `strconv`: `c | ('x' - 'X')`. -/
def lower (c : Nat) : Nat := c ||| 32

/-- The digit value `d` that the `switch` of `ParseUint` gives to the byte `c`;
`none` is its `default` branch. -/
def digitVal (c : Nat) : Option Nat :=
  if 48 ≤ c ∧ c ≤ 57 then some (c - 48)
  else if 97 ≤ lower c ∧ lower c ≤ 122 then some (lower c - 97 + 10)
  else none

/-- The `for` loop of `strconv.ParseUint` for base 10, with `n` a `uint64`,
`cutoff = maxUint64/10 + 1` and `maxVal` the largest value of the bit size. -/
def ParseUint.loop (maxVal : Nat) : GoString → Nat → Nat × Option GoError
  | [], n => (n, none)
  | c :: s, n =>
    match digitVal c with
    | none => (0, some GoError.ErrSyntax)
    | some d =>
      if d ≥ 10 then (0, some GoError.ErrSyntax)
      else if n ≥ (2 ^ 64 - 1) / 10 + 1 then (maxVal, some GoError.ErrRange)
      else
        let n10 := n * 10 % 2 ^ 64
        let n1 := (n10 + d) % 2 ^ 64
        if n1 < n10 ∨ n1 > maxVal then (maxVal, some GoError.ErrRange)
        else ParseUint.loop maxVal s n1

/-- The call `strconv.ParseUint(s, 10, bitSize)`; `intSize` is the width of `int`. -/
def ParseUint (intSize : Nat) (s : GoString) (bitSize : Nat) : Nat × Option GoError :=
  if s = [] then (0, some GoError.ErrSyntax)
  else
    let bitSize := if bitSize = 0 then intSize else bitSize
    if bitSize > 64 then (0, some (GoError.errorString (bytes "invalid bit size")))
    else
      let maxVal := (2 ^ bitSize % 2 ^ 64 + 2 ^ 64 - 1) % 2 ^ 64
      ParseUint.loop maxVal s 0

/-- The call `strconv.ParseInt(s, 10, bitSize)`. -/
def ParseInt (intSize : Nat) (s : GoString) (bitSize : Nat) : Int × Option GoError :=
  match s with
  | [] => (0, some GoError.ErrSyntax)
  | c0 :: rest =>
    let neg : Bool := c0 ≠ 43 ∧ c0 = 45
    let s1 := if c0 = 43 then rest else if c0 = 45 then rest else s
    match ParseUint intSize s1 bitSize with
    | (un, err) =>
      if err ≠ none ∧ err ≠ some GoError.ErrRange then (0, err)
      else
        let bitSize := if bitSize = 0 then intSize else bitSize
        let cutoff := 2 ^ (bitSize - 1) % 2 ^ 64
        if neg = false ∧ un ≥ cutoff then
          (int64 ((cutoff + 2 ^ 64 - 1) % 2 ^ 64), some GoError.ErrRange)
        else if neg = true ∧ un > cutoff then
          (wrapInt 64 (- int64 cutoff), some GoError.ErrRange)
        else
          let n := int64 un
          (if neg then wrapInt 64 (- n) else n, none)

/-- The fast-path loop of `strconv.Atoi`: `none` is the return of a syntax error. The byte
subtraction `ch -= '0'` wraps modulo 256. The accumulator `n` is an `int`; the fast path
admits at most 9 (resp. 18) bytes, so it stays below `2^31` (resp. `2^63`) and is kept
unwrapped (`Atoi.fast_bounds`). -/
def Atoi.loop : GoString → Int → Option Int
  | [], n => some n
  | ch :: s, n =>
    let ch := (ch + 256 - 48) % 256
    if ch > 9 then none else Atoi.loop s (n * 10 + (ch : Int))

/-- The fast path of `strconv.Atoi`, taken for a short non-empty `s`: an optional sign, then
the digit loop. -/
def Atoi.fast (s : GoString) : Int × Option GoError :=
  match s with
  | [] => (0, some GoError.ErrSyntax)
  | c0 :: rest =>
    let signed : Bool := c0 = 45 ∨ c0 = 43
    let s1 := if signed then rest else s
    if signed = true ∧ s1.length < 1 then (0, some GoError.ErrSyntax)
    else
      match Atoi.loop s1 0 with
      | none => (0, some GoError.ErrSyntax)
      | some n => (if c0 = 45 then - n else n, none)

/-- The function `strconv.Atoi(s)` on a platform whose `int` has `intSize` bits: the value
and the error it returns together. The slow path is `ParseInt(s, 10, 0)` converted to
`int`. -/
def Atoi (intSize : Nat) (s : GoString) : Int × Option GoError :=
  let sLen := s.length
  if (intSize = 32 ∧ (0 < sLen ∧ sLen < 10)) ∨ (intSize = 64 ∧ (0 < sLen ∧ sLen < 19)) then
    Atoi.fast s
  else
    match ParseInt intSize s 0 with
    | (i64, err) => (wrapInt intSize i64, err)

/-! ## Configuration loading -/

/-- `func logIfErrNotNil(err error, message string)`: the lines it prints. -/
def logIfErrNotNil (err : Option GoError) (message : GoString) : List GoString :=
  if err ≠ none then [message] else []

/-- `func toInt(data string) int`. -/
def toInt (intSize : Nat) (data : GoString) : Int :=
  match Atoi intSize data with
  | (dataInInt, err) => if err ≠ none then 0 else dataInInt

/-- The function `time.ParseDuration(s)`: the sign, the special case `"0"` and the rejection
of an empty number are transcribed (the error text without the quoted input); `units`, a
parameter, stands for the loop over the `<number><unit>` groups (whose fractions are
scaled in floating point) together with the final sign and overflow handling. -/
def ParseDuration (units : GoString → Bool → Duration × Option GoError) (s : GoString) :
    Duration × Option GoError :=
  let neg : Bool :=
    match s with
    | [] => false
    | c :: _ => if c = 45 ∨ c = 43 then c = 45 else false
  let s1 :=
    match s with
    | [] => s
    | c :: rest => if c = 45 ∨ c = 43 then rest else s
  if s1 = bytes "0" then (0, none)
  else if s1 = [] then (0, some (GoError.errorString (bytes "time: invalid duration")))
  else units s1 neg

/-- `func toDuration(data string) time.Duration`. -/
def toDuration (units : GoString → Bool → Duration × Option GoError) (data : GoString) :
    Duration :=
  match ParseDuration units data with
  | (dataInDuration, err) => if err ≠ none then 0 else dataInDuration

/-- `func load() Config`. `dotenvErr` is what `godotenv.Load()` returned and `getenv` is
`os.Getenv` afterwards (the empty string for an unset variable). The result is the lines
logged and the configuration. -/
def load (intSize : Nat) (units : GoString → Bool → Duration × Option GoError)
    (dotenvErr : Option GoError) (getenv : GoString → GoString) : List GoString × Config :=
  let log := logIfErrNotNil dotenvErr (bytes "Error loading .env file")
  let redisHost := getenv (bytes "RedisHost")
  let redisPort := toInt intSize (getenv (bytes "RedisPort"))
  let redisPassword := getenv (bytes "RedisPassword")
  let redisDatabase := toInt intSize (getenv (bytes "RedisDatabase"))
  let redisPoolSize := toInt intSize (getenv (bytes "RedisPoolSize"))
  let redisTTL := toDuration units (getenv (bytes "RedisTTL"))
  (log, { RedisHost := redisHost, RedisPassword := redisPassword, RedisPort := redisPort,
          RedisDatabase := redisDatabase, RedisPoolSize := redisPoolSize,
          RedisTTL := redisTTL })

/-- A stand-in for the group loop of `ParseDuration` that accepts nothing; used where a
concrete environment is evaluated. -/
def rejectUnits : GoString → Bool → Duration × Option GoError :=
  fun _ _ => (0, some (GoError.errorString (bytes "time: invalid duration")))

/-- The environment in which no variable is set. -/
def emptyEnv : GoString → GoString := fun _ => []

/-! ## The route handlers -/

/-- The values the handlers pass to `c.JSON`: a string, or a `fiber.Map` whose values are
strings. -/
inductive Json where
  | string (s : GoString)
  | map (entries : List (GoString × GoString))
  deriving DecidableEq, Repr

/-- An HTTP response: status code and the value encoded as its JSON body. -/
structure Response where
  status : Nat
  body : Json
  deriving DecidableEq, Repr

/-- The call `c.JSON(data)` on a fresh `*fiber.Ctx`: the status stays at its default 200. -/
def Ctx.JSON (data : Json) : Response := { status := 200, body := data }

/-- What running a handler leaves behind: the cache state, the lines logged, the response. -/
structure Handled (σ : Type) where
  state : σ
  log : List GoString
  response : Response

/-- The handler of `api.Get("/:id", ...)`; `idParam` is `c.Params("id")`. -/
def getHandler {σ : Type} (intSize : Nat) (repo : Cache σ) (st : σ) (idParam : GoString) :
    Handled σ :=
  match Atoi intSize idParam with
  | (id, err) =>
    let log := logIfErrNotNil err (bytes "error get id from url")
    match redisRepository.GET repo st id with
    | (st', result, _) => { state := st', log := log, response := Ctx.JSON (Json.string result) }

/-- The handler of `api.Post("/:id/:value", ...)`; `valueParam` is `c.Params("value")`. -/
def postHandler {σ : Type} (intSize : Nat) (repo : Cache σ) (cfg : Config) (st : σ)
    (idParam valueParam : GoString) : Handled σ :=
  match Atoi intSize idParam with
  | (id, err) =>
    let log := logIfErrNotNil err (bytes "error get id from url")
    let value := valueParam
    let st' := redisRepository.STORE repo cfg st id value
    { state := st', log := log,
      response := Ctx.JSON (Json.map [(bytes "status", bytes "ok")]) }

/-- The handler of `api.Delete("/:id", ...)`. -/
def deleteHandler {σ : Type} (intSize : Nat) (repo : Cache σ) (st : σ) (idParam : GoString) :
    Handled σ :=
  match Atoi intSize idParam with
  | (id, err) =>
    let log := logIfErrNotNil err (bytes "error get id from url")
    match redisRepository.DELETE repo st id with
    | (st', _) =>
      { state := st', log := log,
        response := Ctx.JSON (Json.map [(bytes "status", bytes "ok")]) }

/-! ## Observing the keys a cache is called with -/

/-- One call on the cache object. -/
inductive CacheCall where
  | set (item : Item)
  | get (key : GoString)
  | delete (key : GoString)
  deriving DecidableEq, Repr

/-- Any cache, instrumented: it behaves as `c` does and appends every call to a journal kept
next to the state of `c`. -/
def traced {σ : Type} (c : Cache σ) : Cache (σ × List CacheCall) where
  Set := fun st item =>
    match c.Set st.1 item with
    | (st', err) => ((st', st.2 ++ [CacheCall.set item]), err)
  Lookup := fun st key =>
    match c.Lookup st.1 key with
    | (st', found) => ((st', st.2 ++ [CacheCall.get key]), found)
  Delete := fun st key =>
    match c.Delete st.1 key with
    | (st', err) => ((st', st.2 ++ [CacheCall.delete key]), err)

/-! ## Reading a decimal rendering back -/

/-- The number a run of digit bytes denotes, continuing from `acc`. -/
def digitsValue (acc : Nat) (ds : GoString) : Nat :=
  ds.foldl (fun a b => 10 * a + (b - 48)) acc

/-- The integer a rendering made by `fmtInt` denotes. -/
def readInt : GoString → Int
  | [] => 0
  | b :: ds => if b = 45 then - (digitsValue 0 ds : Int) else (digitsValue 0 (b :: ds) : Int)

/-! ## Digit strings -/

/-- The bytes of a path segment after its optional sign `+` or `-`. -/
def unsignedPart (s : GoString) : GoString :=
  match s with
  | [] => []
  | c :: rest => if c = 45 ∨ c = 43 then rest else s

/-- A digit string: an optional sign followed by one or more decimal digits. -/
def isDigitString (s : GoString) : Bool :=
  !(unsignedPart s).isEmpty && (unsignedPart s).all (fun b => decide (48 ≤ b ∧ b ≤ 57))

/-- The integer a digit string denotes: its digits read in base 10, negated after `-`. -/
def digitStringValue (s : GoString) : Int :=
  if s.head? = some 45 then - (digitsValue 0 (unsignedPart s) : Int)
  else (digitsValue 0 (unsignedPart s) : Int)

/-! # Theorems -/

/-! ## The key function -/

theorem digitsValue_fmtDigits (fuel : Nat) :
    ∀ (u : Nat) (buf : GoString), u < fuel →
      digitsValue 0 (fmtDigits fuel u buf) = digitsValue u buf := by
  induction fuel with
  | zero => intro u buf h; omega
  | succ fuel ih =>
    intro u buf h
    unfold fmtDigits
    split
    · rename_i h10
      rw [ih (u / 10) _ (by omega)]
      simp only [digitsValue, List.foldl_cons]
      congr 1
      omega
    · simp only [digitsValue, List.foldl_cons]
      congr 1
      omega

theorem digitsValue_fmtNat (u : Nat) : digitsValue 0 (fmtNat u) = u := by
  unfold fmtNat
  rw [digitsValue_fmtDigits (u + 1) u [] (by omega)]
  rfl

theorem fmtDigits_mem (fuel : Nat) :
    ∀ (u : Nat) (buf : GoString) (b : Nat), b ∈ fmtDigits fuel u buf →
      b ∈ buf ∨ (48 ≤ b ∧ b ≤ 57) := by
  induction fuel with
  | zero => intro u buf b h; exact Or.inl h
  | succ fuel ih =>
    intro u buf b h
    unfold fmtDigits at h
    split at h
    · rcases ih _ _ _ h with h1 | h1
      · rcases List.mem_cons.mp h1 with h2 | h2
        · right; omega
        · exact Or.inl h2
      · exact Or.inr h1
    · rcases List.mem_cons.mp h with h2 | h2
      · right; omega
      · exact Or.inl h2

theorem fmtNat_mem (u b : Nat) (h : b ∈ fmtNat u) : 48 ≤ b ∧ b ≤ 57 := by
  rcases fmtDigits_mem _ _ _ _ h with h1 | h1
  · simp at h1
  · exact h1

theorem fmtDigits_ne_nil (fuel : Nat) :
    ∀ (u : Nat) (buf : GoString), 0 < fuel → fmtDigits fuel u buf ≠ [] := by
  induction fuel with
  | zero => intro u buf h; omega
  | succ fuel ih =>
    intro u buf _
    unfold fmtDigits
    split
    · rename_i h10
      cases fuel with
      | zero => simp [fmtDigits]
      | succ k => exact ih _ _ (by omega)
    · simp

theorem fmtNat_ne_nil (u : Nat) : fmtNat u ≠ [] :=
  fmtDigits_ne_nil _ _ _ (by omega)

theorem readInt_fmtInt (v : Int) : readInt (fmtInt v) = v := by
  unfold fmtInt
  split
  · rename_i hneg
    simp only [readInt, if_true, digitsValue_fmtNat]
    omega
  · rename_i hpos
    cases hds : fmtNat v.natAbs with
    | nil => exact absurd hds (fmtNat_ne_nil _)
    | cons b ds =>
      have hb : 48 ≤ b ∧ b ≤ 57 := fmtNat_mem v.natAbs b (by rw [hds]; simp)
      have hne : b ≠ 45 := by omega
      simp only [readInt, if_neg hne]
      rw [← hds, digitsValue_fmtNat]
      omega

theorem fmtInt_injective : Function.Injective fmtInt := by
  intro i j h
  have := congrArg readInt h
  rwa [readInt_fmtInt, readInt_fmtInt] at this

theorem Sprintf_data_d_injective : Function.Injective Sprintf_data_d := by
  intro i j h
  unfold Sprintf_data_d at h
  exact fmtInt_injective (List.append_cancel_left h)

/-! ## What `Atoi` returns next to an error -/

theorem ParseUint.loop_err (maxVal : Nat) :
    ∀ (s : GoString) (n v : Nat) (e : GoError),
      ParseUint.loop maxVal s n = (v, some e) →
        (e = GoError.ErrSyntax ∧ v = 0) ∨ (e = GoError.ErrRange ∧ v = maxVal) := by
  intro s
  induction s with
  | nil => intro n v e h; simp [ParseUint.loop] at h
  | cons c s ih =>
    intro n v e h
    unfold ParseUint.loop at h
    split at h
    · simp only [Prod.mk.injEq, Option.some.injEq] at h
      exact Or.inl ⟨h.2.symm, h.1.symm⟩
    · split at h
      · simp only [Prod.mk.injEq, Option.some.injEq] at h
        exact Or.inl ⟨h.2.symm, h.1.symm⟩
      · split at h
        · simp only [Prod.mk.injEq, Option.some.injEq] at h
          exact Or.inr ⟨h.2.symm, h.1.symm⟩
        · simp only at h
          split at h
          · simp only [Prod.mk.injEq, Option.some.injEq] at h
            exact Or.inr ⟨h.2.symm, h.1.symm⟩
          · exact ih _ _ _ h

theorem ParseUint_err (w : Nat) (hw : w = 32 ∨ w = 64) (s : GoString) (v : Nat) (e : GoError)
    (h : ParseUint w s 0 = (v, some e)) :
    (e = GoError.ErrSyntax ∧ v = 0) ∨ (e = GoError.ErrRange ∧ v = 2 ^ w - 1) := by
  unfold ParseUint at h
  split at h
  · simp only [Prod.mk.injEq, Option.some.injEq] at h
    exact Or.inl ⟨h.2.symm, h.1.symm⟩
  · rcases hw with rfl | rfl
    · simp only [if_true] at h
      norm_num at h
      have := ParseUint.loop_err _ _ _ _ _ h
      simpa using this
    · simp only [if_true] at h
      norm_num at h
      have := ParseUint.loop_err _ _ _ _ _ h
      simpa using this

theorem ParseInt_err (w : Nat) (hw : w = 32 ∨ w = 64) (s : GoString) (v : Int) (e : GoError)
    (h : ParseInt w s 0 = (v, some e)) :
    (e = GoError.ErrSyntax ∧ v = 0) ∨
      (e = GoError.ErrRange ∧ s ≠ [] ∧
        v = if s.head? = some 45 then - 2 ^ (w - 1) else 2 ^ (w - 1) - 1) := by
  cases s with
  | nil =>
    simp only [ParseInt, Prod.mk.injEq, Option.some.injEq] at h
    exact Or.inl ⟨h.2.symm, h.1.symm⟩
  | cons c0 rest =>
    simp only [ParseInt, if_true] at h
    generalize hPU :
      ParseUint w (if c0 = 43 then rest else if c0 = 45 then rest else c0 :: rest) 0 = r at h
    obtain ⟨un, err⟩ := r
    simp only at h
    by_cases hne : err ≠ none ∧ err ≠ some GoError.ErrRange
    · rw [if_pos hne, Prod.mk.injEq] at h
      obtain ⟨hv, he⟩ := h
      subst he
      rcases ParseUint_err w hw _ _ _ hPU with h1 | h1
      · exact Or.inl ⟨h1.1, hv.symm⟩
      · exact absurd (congrArg some h1.1) hne.2
    · rw [if_neg hne] at h
      by_cases hb1 : decide (c0 ≠ 43 ∧ c0 = 45) = false ∧ un ≥ 2 ^ (w - 1) % 2 ^ 64
      · rw [if_pos hb1] at h
        simp only [Prod.mk.injEq, Option.some.injEq] at h
        have h45 : c0 ≠ 45 := by
          intro hc
          have := hb1.1
          simp [hc] at this
        refine Or.inr ⟨h.2.symm, List.cons_ne_nil _ _, ?_⟩
        rw [← h.1, List.head?_cons, if_neg (by simpa using h45)]
        rcases hw with rfl | rfl <;> norm_num [int64, wrapInt]
      · rw [if_neg hb1] at h
        by_cases hb2 : decide (c0 ≠ 43 ∧ c0 = 45) = true ∧ un > 2 ^ (w - 1) % 2 ^ 64
        · rw [if_pos hb2] at h
          simp only [Prod.mk.injEq, Option.some.injEq] at h
          have h45 : c0 = 45 := by
            have := hb2.1
            simp at this
            exact this.2
          refine Or.inr ⟨h.2.symm, List.cons_ne_nil _ _, ?_⟩
          rw [← h.1, List.head?_cons, if_pos (by rw [h45])]
          rcases hw with rfl | rfl <;> norm_num [int64, wrapInt]
        · rw [if_neg hb2] at h
          simp at h

theorem Atoi.fast_err (s : GoString) (v : Int) (e : GoError)
    (h : Atoi.fast s = (v, some e)) : e = GoError.ErrSyntax ∧ v = 0 := by
  cases s with
  | nil =>
    simp only [Atoi.fast, Prod.mk.injEq, Option.some.injEq] at h
    exact ⟨h.2.symm, h.1.symm⟩
  | cons c0 rest =>
    simp only [Atoi.fast] at h
    generalize (if decide (c0 = 45 ∨ c0 = 43) = true then rest else c0 :: rest) = s1 at h
    by_cases hc : decide (c0 = 45 ∨ c0 = 43) = true ∧ s1.length < 1
    · rw [if_pos hc] at h
      simp only [Prod.mk.injEq, Option.some.injEq] at h
      exact ⟨h.2.symm, h.1.symm⟩
    · rw [if_neg hc] at h
      cases hl : Atoi.loop s1 0 with
      | none =>
        rw [hl] at h
        simp only [Prod.mk.injEq, Option.some.injEq] at h
        exact ⟨h.2.symm, h.1.symm⟩
      | some n =>
        rw [hl] at h
        simp at h

theorem Atoi_err (w : Nat) (hw : w = 32 ∨ w = 64) (s : GoString) (v : Int) (e : GoError)
    (h : Atoi w s = (v, some e)) :
    (e = GoError.ErrSyntax ∧ v = 0) ∨
      (e = GoError.ErrRange
        ∧ (v = if s.head? = some 45 then - 2 ^ (w - 1) else 2 ^ (w - 1) - 1)
        ∧ (w = 32 → 10 ≤ s.length) ∧ (w = 64 → 19 ≤ s.length)) := by
  unfold Atoi at h
  simp only at h
  by_cases hc : (w = 32 ∧ (0 < s.length ∧ s.length < 10))
      ∨ (w = 64 ∧ (0 < s.length ∧ s.length < 19))
  · rw [if_pos hc] at h
    exact Or.inl (Atoi.fast_err s v e h)
  · rw [if_neg hc] at h
    generalize hPI : ParseInt w s 0 = r at h
    obtain ⟨i64, err⟩ := r
    simp only [Prod.mk.injEq] at h
    obtain ⟨hv, he⟩ := h
    subst he
    rcases ParseInt_err w hw _ _ _ hPI with h1 | h1
    · refine Or.inl ⟨h1.1, ?_⟩
      rw [← hv, h1.2]
      rcases hw with rfl | rfl <;> norm_num [wrapInt]
    · obtain ⟨he, hs, hval⟩ := h1
      have hlen : 0 < s.length := List.length_pos.mpr hs
      refine Or.inr ⟨he, ?_, ?_, ?_⟩
      · rw [← hv, hval]
        split
        · rcases hw with rfl | rfl <;> norm_num [wrapInt]
        · rcases hw with rfl | rfl <;> norm_num [wrapInt]
      · intro h32
        by_contra hlt
        exact hc (Or.inl ⟨h32, hlen, by omega⟩)
      · intro h64
        by_contra hlt
        exact hc (Or.inr ⟨h64, hlen, by omega⟩)

/-! ## The range and the sign of what `Atoi` returns -/

theorem Atoi.loop_bounds :
    ∀ (s : GoString) (acc n : Int), Atoi.loop s acc = some n → 0 ≤ acc →
      acc * 10 ^ s.length ≤ n ∧ n < (acc + 1) * 10 ^ s.length := by
  intro s
  induction s with
  | nil =>
    intro acc n h _
    simp only [Atoi.loop, Option.some.injEq] at h
    subst h
    simp
  | cons ch s ih =>
    intro acc n h hacc
    simp only [Atoi.loop] at h
    split at h
    · exact absurd h (by simp)
    · rename_i hd
      have hd' : ((ch + 256 - 48) % 256 : Nat) ≤ 9 := by omega
      have hd'' : (((ch + 256 - 48) % 256 : Nat) : Int) ≤ 9 := by exact_mod_cast hd'
      have hd0 : (0 : Int) ≤ (((ch + 256 - 48) % 256 : Nat) : Int) := Int.natCast_nonneg _
      obtain ⟨h1, h2⟩ := ih _ _ h (by positivity)
      have hP : (0 : Int) < 10 ^ s.length := by positivity
      rw [List.length_cons, pow_succ]
      constructor
      · nlinarith
      · nlinarith

theorem wrapInt_range (w : Nat) (hw : w = 32 ∨ w = 64) (x : Int) :
    - 2 ^ (w - 1) ≤ wrapInt w x ∧ wrapInt w x < 2 ^ (w - 1) := by
  rcases hw with rfl | rfl <;> norm_num [wrapInt] <;> omega

theorem wrapInt_of_range (w : Nat) (hw : w = 32 ∨ w = 64) (x : Int)
    (h1 : - 2 ^ (w - 1) ≤ x) (h2 : x < 2 ^ (w - 1)) : wrapInt w x = x := by
  rcases hw with rfl | rfl <;> norm_num [wrapInt] at h1 h2 ⊢ <;> omega

theorem Atoi.fast_bounds (s : GoString) (L : Nat) (hL : s.length ≤ L) :
    - 10 ^ L < (Atoi.fast s).1 ∧ (Atoi.fast s).1 < 10 ^ L
      ∧ ((Atoi.fast s).1 < 0 → s.head? = some 45) := by
  have hpos : (0 : Int) < 10 ^ L := by positivity
  cases s with
  | nil => simp [Atoi.fast]
  | cons c0 rest =>
    simp only [Atoi.fast]
    have hlen : (if decide (c0 = 45 ∨ c0 = 43) = true then rest else c0 :: rest).length ≤ L := by
      split <;> simp only [List.length_cons] at hL ⊢ <;> omega
    generalize (if decide (c0 = 45 ∨ c0 = 43) = true then rest else c0 :: rest) = s1 at hlen ⊢
    by_cases hc : decide (c0 = 45 ∨ c0 = 43) = true ∧ s1.length < 1
    · rw [if_pos hc]
      simp [hpos]
    · rw [if_neg hc]
      cases hl : Atoi.loop s1 0 with
      | none => simp [hpos]
      | some n =>
        obtain ⟨h1, h2⟩ := Atoi.loop_bounds s1 0 n hl (le_refl 0)
        have hle : (10 : Int) ^ s1.length ≤ 10 ^ L :=
          pow_le_pow_right₀ (by norm_num) hlen
        simp only [zero_mul, zero_add, one_mul] at h1 h2
        simp only [List.head?_cons, Option.some.injEq]
        by_cases h45 : c0 = 45
        · simp only [if_pos h45]
          refine ⟨by omega, by omega, fun _ => h45⟩
        · simp only [if_neg h45]
          refine ⟨by omega, by omega, fun h => by omega⟩

theorem int64_of_lt (u : Nat) (h : u < 2 ^ 63) : int64 u = (u : Int) := by
  unfold int64 wrapInt
  norm_num at h ⊢
  omega

theorem ParseInt_nonneg (w : Nat) (hw : w = 32 ∨ w = 64) (c0 : Nat) (rest : GoString)
    (h45 : c0 ≠ 45) :
    0 ≤ (ParseInt w (c0 :: rest) 0).1 ∧ (ParseInt w (c0 :: rest) 0).1 < 2 ^ (w - 1) := by
  simp only [ParseInt, if_true, if_neg h45]
  generalize ParseUint w (if c0 = 43 then rest else c0 :: rest) 0 = r
  obtain ⟨un, err⟩ := r
  have hneg : decide (c0 ≠ 43 ∧ c0 = 45) = false := by simp [h45]
  simp only [hneg]
  have hpow : (0 : Int) < 2 ^ (w - 1) := by positivity
  by_cases hne : err ≠ none ∧ err ≠ some GoError.ErrRange
  · rw [if_pos hne]
    exact ⟨le_refl 0, hpow⟩
  · rw [if_neg hne]
    have hcut : 2 ^ (w - 1) % 2 ^ 64 = 2 ^ (w - 1) ∧ 2 ^ (w - 1) ≤ 2 ^ 63 ∧ 0 < 2 ^ (w - 1) := by
      rcases hw with rfl | rfl <;> norm_num
    obtain ⟨hc1, hc2, hc3⟩ := hcut
    rw [hc1]
    generalize hcdef : 2 ^ (w - 1) = cutoff at hc2 hc3
    have hcI : (2 : Int) ^ (w - 1) = (cutoff : Int) := by
      rw [← hcdef]; push_cast; rfl
    rw [hcI]
    by_cases hge : un ≥ cutoff
    · rw [if_pos ⟨trivial, hge⟩]
      have h1 : (cutoff + 2 ^ 64 - 1) % 2 ^ 64 = cutoff - 1 := by
        norm_num at hc2 ⊢
        omega
      simp only [h1]
      rw [int64_of_lt _ (by norm_num at hc2 ⊢; omega)]
      omega
    · have hf : ¬ (True ∧ un ≥ cutoff) := fun h => hge h.2
      rw [if_neg hf, if_neg (by simp)]
      simp only [Bool.false_eq_true, if_false]
      rw [int64_of_lt _ (by norm_num at hc2 ⊢; omega)]
      omega


theorem Atoi_in_range (w : Nat) (hw : w = 32 ∨ w = 64) (s : GoString) :
    - 2 ^ (w - 1) ≤ (Atoi w s).1 ∧ (Atoi w s).1 < 2 ^ (w - 1) := by
  unfold Atoi
  simp only
  split
  · rename_i hc
    rcases hc with ⟨rfl, _, h2⟩ | ⟨rfl, _, h2⟩
    · obtain ⟨h3, h4, _⟩ := Atoi.fast_bounds s 9 (by omega)
      norm_num at h3 h4 ⊢
      omega
    · obtain ⟨h3, h4, _⟩ := Atoi.fast_bounds s 18 (by omega)
      norm_num at h3 h4 ⊢
      omega
  · exact wrapInt_range w hw _

theorem Atoi_neg (w : Nat) (hw : w = 32 ∨ w = 64) (s : GoString) (h : (Atoi w s).1 < 0) :
    s.head? = some 45 := by
  unfold Atoi at h
  simp only at h
  split at h
  · exact (Atoi.fast_bounds s s.length (le_refl _)).2.2 h
  · cases s with
    | nil =>
      exfalso
      simp only [ParseInt] at h
      rcases hw with rfl | rfl <;> norm_num [wrapInt] at h
    | cons c0 rest =>
      by_cases h45 : c0 = 45
      · simp [h45]
      · exfalso
        obtain ⟨h1, h2⟩ := ParseInt_nonneg w hw c0 rest h45
        rw [wrapInt_of_range w hw _ (by
          have : (0 : Int) ≤ 2 ^ (w - 1) := by positivity
          omega) h2] at h
        omega

/-! ## `Atoi` on digit strings -/

theorem digitsValue_ge : ∀ (ds : GoString) (a : Nat), a ≤ digitsValue a ds := by
  intro ds
  induction ds with
  | nil => intro a; exact le_refl a
  | cons b ds ih =>
    intro a
    have h := ih (10 * a + (b - 48))
    simp only [digitsValue, List.foldl_cons] at h ⊢
    omega

theorem Atoi.loop_reads_digits :
    ∀ (ds : GoString) (a : Nat), (∀ b ∈ ds, 48 ≤ b ∧ b ≤ 57) →
      Atoi.loop ds (a : Int) = some ((digitsValue a ds : Nat) : Int) := by
  intro ds
  induction ds with
  | nil => intro a _; rfl
  | cons b ds ih =>
    intro a hd
    have hb : 48 ≤ b ∧ b ≤ 57 := hd b (List.mem_cons_self _ _)
    have hmod : (b + 256 - 48) % 256 = b - 48 := by omega
    simp only [Atoi.loop, hmod]
    rw [if_neg (by omega)]
    have hcast : ((a : Int) * 10 + ((b - 48 : Nat) : Int)) = ((10 * a + (b - 48) : Nat) : Int) := by
      push_cast
      ring
    rw [hcast, ih _ (fun x hx => hd x (List.mem_cons_of_mem _ hx))]
    rfl

theorem digitVal_digit (c : Nat) (h : 48 ≤ c ∧ c ≤ 57) : digitVal c = some (c - 48) := by
  unfold digitVal
  rw [if_pos h]

theorem ParseUint.loop_accumulates_digits (maxVal : Nat) (hmax : maxVal < 2 ^ 64) :
    ∀ (ds : GoString) (n : Nat), (∀ b ∈ ds, 48 ≤ b ∧ b ≤ 57) → n ≤ maxVal →
      ParseUint.loop maxVal ds n =
        if digitsValue n ds ≤ maxVal then (digitsValue n ds, none)
        else (maxVal, some GoError.ErrRange) := by
  have hmax' : maxVal < 18446744073709551616 := by norm_num at hmax; exact hmax
  intro ds
  induction ds with
  | nil =>
    intro n _ hn
    simp only [ParseUint.loop, digitsValue, List.foldl_nil]
    rw [if_pos hn]
  | cons b ds ih =>
    intro n hd hn
    have hb : 48 ≤ b ∧ b ≤ 57 := hd b (List.mem_cons_self _ _)
    have hge := digitsValue_ge ds (10 * n + (b - 48))
    have hstep : digitsValue n (b :: ds) = digitsValue (10 * n + (b - 48)) ds := rfl
    rw [hstep]
    simp only [ParseUint.loop, digitVal_digit b hb]
    rw [if_neg (by omega)]
    have hcut : (2 ^ 64 - 1) / 10 + 1 = 1844674407370955162 := by norm_num
    have hpow : 2 ^ 64 = 18446744073709551616 := by norm_num
    rw [hcut, hpow]
    by_cases h1 : n ≥ 1844674407370955162
    · rw [if_pos h1, if_neg (by omega)]
    · rw [if_neg h1]
      have hn10 : n * 10 % 18446744073709551616 = n * 10 := Nat.mod_eq_of_lt (by omega)
      rw [hn10]
      by_cases h2 : n * 10 + (b - 48) < 18446744073709551616
      · have hn1 : (n * 10 + (b - 48)) % 18446744073709551616 = n * 10 + (b - 48) :=
          Nat.mod_eq_of_lt h2
        rw [hn1]
        by_cases h3 : n * 10 + (b - 48) > maxVal
        · rw [if_pos (Or.inr h3), if_neg (by omega)]
        · rw [if_neg (by omega)]
          have := ih (n * 10 + (b - 48)) (fun x hx => hd x (List.mem_cons_of_mem _ hx))
            (by omega)
          rw [this, Nat.mul_comm 10 n]
      · have hwrap : (n * 10 + (b - 48)) % 18446744073709551616 < n * 10 := by omega
        rw [if_pos (Or.inl hwrap), if_neg (by omega)]

theorem ParseUint_digits (w : Nat) (hw : w = 32 ∨ w = 64) (ds : GoString) (hne : ds ≠ [])
    (hd : ∀ b ∈ ds, 48 ≤ b ∧ b ≤ 57) :
    ParseUint w ds 0 =
      if digitsValue 0 ds ≤ 2 ^ w - 1 then (digitsValue 0 ds, none)
      else (2 ^ w - 1, some GoError.ErrRange) := by
  unfold ParseUint
  rw [if_neg hne]
  simp only [if_true]
  rcases hw with rfl | rfl
  · have hm : (2 ^ 32 % 2 ^ 64 + 2 ^ 64 - 1) % 2 ^ 64 = 2 ^ 32 - 1 := by norm_num
    rw [if_neg (by omega), hm]
    exact ParseUint.loop_accumulates_digits _ (by norm_num) ds 0 hd (Nat.zero_le _)
  · have hm : (2 ^ 64 % 2 ^ 64 + 2 ^ 64 - 1) % 2 ^ 64 = 2 ^ 64 - 1 := by norm_num
    rw [if_neg (by omega), hm]
    exact ParseUint.loop_accumulates_digits _ (by norm_num) ds 0 hd (Nat.zero_le _)

theorem isDigitString_iff (s : GoString) :
    isDigitString s = true ↔
      unsignedPart s ≠ [] ∧ ∀ b ∈ unsignedPart s, 48 ≤ b ∧ b ≤ 57 := by
  unfold isDigitString
  simp [List.isEmpty_iff]

theorem neg_int64 (u : Nat) (h : u ≤ 2 ^ 63) : wrapInt 64 (- int64 u) = - (u : Int) := by
  unfold int64 wrapInt
  norm_num at h ⊢
  omega

theorem ParseInt_digits (w : Nat) (hw : w = 32 ∨ w = 64) (s : GoString)
    (h : isDigitString s = true) :
    ParseInt w s 0 =
      if - 2 ^ (w - 1) ≤ digitStringValue s ∧ digitStringValue s < 2 ^ (w - 1) then
        (digitStringValue s, none)
      else
        (if s.head? = some 45 then - 2 ^ (w - 1) else 2 ^ (w - 1) - 1, some GoError.ErrRange) := by
  obtain ⟨hne, hd⟩ := (isDigitString_iff s).mp h
  cases s with
  | nil => exact absurd rfl hne
  | cons c0 rest =>
    have hs1 : (if c0 = 43 then rest else if c0 = 45 then rest else c0 :: rest)
        = unsignedPart (c0 :: rest) := by
      unfold unsignedPart
      by_cases h43 : c0 = 43
      · simp [h43]
      · by_cases h45 : c0 = 45
        · simp [h45]
        · simp [h43, h45]
    simp only [ParseInt, if_true]
    rw [hs1, ParseUint_digits w hw _ hne hd]
    unfold digitStringValue
    generalize digitsValue 0 (unsignedPart (c0 :: rest)) = N
    simp only [List.head?_cons, Option.some.injEq]
    have hcut : 2 ^ (w - 1) % 2 ^ 64 = 2 ^ (w - 1) ∧ 2 ^ (w - 1) ≤ 9223372036854775808
        ∧ 2 ≤ 2 ^ (w - 1) ∧ 2 ^ w - 1 = 2 * 2 ^ (w - 1) - 1 := by
      rcases hw with rfl | rfl <;> norm_num
    obtain ⟨hc1, hc2, hc3, hc4⟩ := hcut
    rw [hc1, hc4]
    have hcI : (2 : Int) ^ (w - 1) = ((2 ^ (w - 1) : Nat) : Int) := by push_cast; rfl
    rw [hcI]
    generalize 2 ^ (w - 1) = C at hc2 hc3
    have hb : (C + 2 ^ 64 - 1) % 2 ^ 64 = C - 1 := by
      norm_num
      omega
    have hi1 : int64 (C - 1) = (C : Int) - 1 := by
      rw [int64_of_lt _ (by norm_num; omega)]
      omega
    have hi2 : wrapInt 64 (- int64 C) = - (C : Int) := neg_int64 C (by norm_num; omega)
    rw [hb, hi1, hi2]
    have hng : decide (c0 ≠ 43 ∧ c0 = 45) = decide (c0 = 45) := by
      by_cases h45 : c0 = 45
      · subst h45; decide
      · simp [h45]
    rw [hng]
    clear hc1 hc4 hcI hb hi1 hi2 hs1 hd hne h hw hng
    by_cases h45 : c0 = 45
    · have hdt : decide (c0 = 45) = true := decide_eq_true h45
      simp only [hdt, if_pos h45, if_true]
      by_cases hN : N ≤ 2 * C - 1
      · rw [if_pos hN]
        simp only [ne_eq, not_true_eq_false, false_and, if_false, Bool.true_eq_false]
        by_cases hgt : N > C
        · have h1 : True ∧ N > C := ⟨trivial, hgt⟩
          have h2 : ¬ (-(C : Int) ≤ -(N : Int) ∧ -(N : Int) < (C : Int)) := by omega
          rw [if_pos h1, if_neg h2]
        · have h1 : ¬ (True ∧ N > C) := fun h => hgt h.2
          have h2 : -(C : Int) ≤ -(N : Int) ∧ -(N : Int) < (C : Int) := by omega
          rw [if_neg h1, if_pos h2, neg_int64 N (by norm_num; omega)]
      · rw [if_neg hN]
        simp only [ne_eq, not_true_eq_false, and_false, if_false, Bool.true_eq_false,
          false_and]
        have h1 : True ∧ 2 * C - 1 > C := ⟨trivial, by omega⟩
        have h2 : ¬ (-(C : Int) ≤ -(N : Int) ∧ -(N : Int) < (C : Int)) := by omega
        rw [if_pos h1, if_neg h2]
    · have hdf : decide (c0 = 45) = false := decide_eq_false h45
      simp only [hdf, if_neg h45]
      by_cases hN : N ≤ 2 * C - 1
      · rw [if_pos hN]
        simp only [ne_eq, not_true_eq_false, false_and, if_false, Bool.false_eq_true]
        by_cases hge : N ≥ C
        · have h1 : True ∧ N ≥ C := ⟨trivial, hge⟩
          have h2 : ¬ (-(C : Int) ≤ (N : Int) ∧ (N : Int) < (C : Int)) := by omega
          rw [if_pos h1, if_neg h2]
        · have h1 : ¬ (True ∧ N ≥ C) := fun h => hge h.2
          have h2 : -(C : Int) ≤ (N : Int) ∧ (N : Int) < (C : Int) := by omega
          rw [if_neg h1, if_pos h2, int64_of_lt N (by norm_num; omega)]
      · rw [if_neg hN]
        simp only [ne_eq, not_true_eq_false, and_false, if_false, Bool.false_eq_true,
          false_and]
        have h1 : True ∧ 2 * C - 1 ≥ C := ⟨trivial, by omega⟩
        have h2 : ¬ (-(C : Int) ≤ (N : Int) ∧ (N : Int) < (C : Int)) := by omega
        rw [if_pos h1, if_neg h2]

theorem Atoi_digits (w : Nat) (hw : w = 32 ∨ w = 64) (s : GoString)
    (h : isDigitString s = true) :
    Atoi w s =
      if - 2 ^ (w - 1) ≤ digitStringValue s ∧ digitStringValue s < 2 ^ (w - 1) then
        (digitStringValue s, none)
      else
        (if s.head? = some 45 then - 2 ^ (w - 1) else 2 ^ (w - 1) - 1, some GoError.ErrRange) := by
  unfold Atoi
  simp only
  by_cases hc : (w = 32 ∧ (0 < s.length ∧ s.length < 10))
      ∨ (w = 64 ∧ (0 < s.length ∧ s.length < 19))
  · rw [if_pos hc]
    obtain ⟨hne, hd⟩ := (isDigitString_iff s).mp h
    cases s with
    | nil => exact absurd rfl hne
    | cons c0 rest =>
      have hs1 : (if decide (c0 = 45 ∨ c0 = 43) = true then rest else c0 :: rest)
          = unsignedPart (c0 :: rest) := by
        unfold unsignedPart
        by_cases hsg : c0 = 45 ∨ c0 = 43
        · simp [hsg]
        · simp [hsg]
      have hlen : (unsignedPart (c0 :: rest)).length ≤ (c0 :: rest).length := by
        rw [← hs1]
        by_cases hsg : decide (c0 = 45 ∨ c0 = 43) = true
        · rw [if_pos hsg]; simp
        · rw [if_neg hsg]
      have hloop := Atoi.loop_reads_digits (unsignedPart (c0 :: rest)) 0 hd
      have hbound := Atoi.loop_bounds (unsignedPart (c0 :: rest)) 0 _ hloop (le_refl 0)
      simp only [Atoi.fast]
      rw [hs1]
      have hnl : ¬ (decide (c0 = 45 ∨ c0 = 43) = true ∧ (unsignedPart (c0 :: rest)).length < 1) := by
        intro hx
        exact hne (List.length_eq_zero.mp (by omega))
      rw [if_neg hnl]
      have hloop' : Atoi.loop (unsignedPart (c0 :: rest)) 0
          = some ((digitsValue 0 (unsignedPart (c0 :: rest)) : Nat) : Int) := hloop
      rw [hloop']
      unfold digitStringValue
      simp only [List.head?_cons, Option.some.injEq]
      generalize digitsValue 0 (unsignedPart (c0 :: rest)) = N at hbound ⊢
      simp only [zero_add, one_mul] at hbound
      have hN : (N : Int) < 2 ^ (w - 1) := by
        rcases hc with ⟨rfl, _, h2⟩ | ⟨rfl, _, h2⟩
        · have hle : (10 : Int) ^ (unsignedPart (c0 :: rest)).length ≤ 10 ^ 9 :=
            pow_le_pow_right₀ (by norm_num) (by omega)
          have := hbound.2
          norm_num at hle ⊢
          omega
        · have hle : (10 : Int) ^ (unsignedPart (c0 :: rest)).length ≤ 10 ^ 18 :=
            pow_le_pow_right₀ (by norm_num) (by omega)
          have := hbound.2
          norm_num at hle ⊢
          omega
      have hrange : - (2 : Int) ^ (w - 1) ≤ (if c0 = 45 then - (N : Int) else (N : Int))
          ∧ (if c0 = 45 then - (N : Int) else (N : Int)) < 2 ^ (w - 1) := by
        split <;> constructor <;> omega
      rw [if_pos hrange]
  · rw [if_neg hc, ParseInt_digits w hw s h]
    by_cases hr : - 2 ^ (w - 1) ≤ digitStringValue s ∧ digitStringValue s < 2 ^ (w - 1)
    · rw [if_pos hr]
      simp only
      rw [wrapInt_of_range w hw _ hr.1 hr.2]
    · rw [if_neg hr]
      simp only
      congr 1
      split
      · rcases hw with rfl | rfl <;> norm_num [wrapInt]
      · rcases hw with rfl | rfl <;> norm_num [wrapInt]


/-! ## The repository over any cache -/

theorem GET_eq {σ : Type} (r : Cache σ) (st : σ) (id : Int) :
    redisRepository.GET r st id =
      match r.Lookup st (Sprintf_data_d id) with
      | (st', Lookup.hit v) => (st', v, none)
      | (st', Lookup.miss) => (st', [], none)
      | (st', Lookup.fail msg) => (st', [], some (GoError.errorString msg)) := by
  unfold redisRepository.GET Cache.Get
  rcases h : r.Lookup st (Sprintf_data_d id) with ⟨st', found⟩
  cases found <;> simp

theorem DELETE_eq {σ : Type} (r : Cache σ) (st : σ) (id : Int) :
    redisRepository.DELETE r st id =
      match r.Delete st (Sprintf_data_d id) with
      | (st', none) => (st', none)
      | (st', some GoError.ErrCacheMiss) => (st', none)
      | (st', some e) => (st', some e) := by
  unfold redisRepository.DELETE
  rcases h : r.Delete st (Sprintf_data_d id) with ⟨st', err⟩
  cases err with
  | none => simp
  | some e => cases e <;> simp

/-! ## The repository over the key-to-value map -/

theorem GET_mapCache (st : GoString → Option GoString) (id : Int) :
    redisRepository.GET mapCache st id =
      (st, (st (Sprintf_data_d id)).getD [], none) := by
  rw [GET_eq]
  simp only [mapCache]
  cases st (Sprintf_data_d id) <;> rfl

theorem STORE_mapCache (cfg : Config) (st : GoString → Option GoString) (id : Int)
    (data : GoString) :
    redisRepository.STORE mapCache cfg st id data =
      fun k => if k = Sprintf_data_d id then some data else st k := rfl

theorem DELETE_mapCache (st : GoString → Option GoString) (id : Int) :
    redisRepository.DELETE mapCache st id =
      (fun k => if k = Sprintf_data_d id then none else st k, none) := rfl

/-- C1. Over the key-to-value map, `STORE(id, value)` followed by `GET(id)` returns
`(value, nil)`, for every id, value, configuration and earlier content of the map; and
`STORE(42, "hello")` then `GET(42)` on the empty map returns `"hello"`. -/
theorem store_then_get (cfg : Config) (st : GoString → Option GoString) (id : Int)
    (value : GoString) :
    (redisRepository.GET mapCache (redisRepository.STORE mapCache cfg st id value) id).2
        = (value, none)
    ∧ (redisRepository.GET mapCache
        (redisRepository.STORE mapCache cfg emptyMap 42 (bytes "hello")) 42).2
        = (bytes "hello", none) := by
  constructor <;> simp [GET_mapCache, STORE_mapCache]

/-- C2. `GET` turns the outcome of the cache lookup on `data_<id>` into its result: a hit
with `v` gives `(v, nil)`, a miss gives `("", nil)`, any other failure `e` gives `("", e)`;
and on the key-to-value map an id with no entry gives `("", nil)`. -/
theorem get_translates_lookup {σ : Type} (r : Cache σ) (st : σ) (id : Int)
    (m : GoString → Option GoString) :
    (redisRepository.GET r st id).2 =
      (match (r.Lookup st (Sprintf_data_d id)).2 with
        | Lookup.hit v => (v, none)
        | Lookup.miss => ([], none)
        | Lookup.fail msg => ([], some (GoError.errorString msg)))
    ∧ (m (Sprintf_data_d id) = none → (redisRepository.GET mapCache m id).2 = ([], none)) := by
  constructor
  · rw [GET_eq]
    rcases h : r.Lookup st (Sprintf_data_d id) with ⟨st', found⟩
    cases found <;> rfl
  · intro h
    rw [GET_mapCache, h]
    rfl

theorem get_translates_lookup_witness :
    emptyMap (Sprintf_data_d 999) = none ∧
      (redisRepository.GET mapCache emptyMap 999).2 = ([], none) :=
  ⟨rfl, (get_translates_lookup mapCache emptyMap 999 emptyMap).2 rfl⟩

/-- C3. `DELETE` returns `nil` exactly when the cache delete on `data_<id>` returned `nil` or
`cache.ErrCacheMiss`; any other error `e` is returned as it is; and on the key-to-value
map `DELETE` of an id with no entry returns `nil`. -/
theorem delete_translates_error {σ : Type} (r : Cache σ) (st : σ) (id : Int)
    (m : GoString → Option GoString) :
    ((redisRepository.DELETE r st id).2 = none ↔
        ((r.Delete st (Sprintf_data_d id)).2 = none
          ∨ (r.Delete st (Sprintf_data_d id)).2 = some GoError.ErrCacheMiss))
    ∧ (∀ e : GoError, (r.Delete st (Sprintf_data_d id)).2 = some e →
        e ≠ GoError.ErrCacheMiss → (redisRepository.DELETE r st id).2 = some e)
    ∧ (m (Sprintf_data_d id) = none → (redisRepository.DELETE mapCache m id).2 = none) := by
  refine ⟨?_, ?_, fun _ => rfl⟩
  · rw [DELETE_eq]
    rcases h : r.Delete st (Sprintf_data_d id) with ⟨st', err⟩
    cases err with
    | none => simp
    | some e => cases e <;> simp
  · intro e he hne
    rw [DELETE_eq]
    rcases h : r.Delete st (Sprintf_data_d id) with ⟨st', err⟩
    rw [h] at he
    simp only at he
    subst he
    cases e <;> simp at hne ⊢

theorem delete_translates_error_witness :
    ((failingCache.Delete emptyMap (Sprintf_data_d 7)).2
        = some (GoError.errorString (bytes "timeout"))
      ∧ GoError.errorString (bytes "timeout") ≠ GoError.ErrCacheMiss
      ∧ (redisRepository.DELETE failingCache emptyMap 7).2
        = some (GoError.errorString (bytes "timeout")))
    ∧ (emptyMap (Sprintf_data_d 7) = none ∧
        (redisRepository.DELETE mapCache emptyMap 7).2 = none) :=
  ⟨⟨rfl, by decide,
    (delete_translates_error failingCache emptyMap 7 emptyMap).2.1
      (GoError.errorString (bytes "timeout")) rfl (by decide)⟩,
   rfl, (delete_translates_error mapCache emptyMap 7 emptyMap).2.2 rfl⟩

/-- C4. Over the key-to-value map, `DELETE(id)` followed by `GET(id)` returns `("", nil)`,
whatever the map held before. -/
theorem delete_then_get (st : GoString → Option GoString) (id : Int) :
    (redisRepository.GET mapCache (redisRepository.DELETE mapCache st id).1 id).2
      = ([], none) := by
  simp [GET_mapCache, DELETE_mapCache]

/-- C10. The key function `id ↦ fmt.Sprintf("data_%d", id)` is injective, and over the
key-to-value map, for ids `i ≠ j`, neither `STORE(i, v)` nor `DELETE(i)` changes what
`GET(j)` returns. -/
theorem key_separation (cfg : Config) (st : GoString → Option GoString) (i j : Int)
    (v : GoString) (hij : i ≠ j) :
    Function.Injective Sprintf_data_d
    ∧ (redisRepository.GET mapCache (redisRepository.STORE mapCache cfg st i v) j).2
        = (redisRepository.GET mapCache st j).2
    ∧ (redisRepository.GET mapCache (redisRepository.DELETE mapCache st i).1 j).2
        = (redisRepository.GET mapCache st j).2 := by
  have hk : Sprintf_data_d j ≠ Sprintf_data_d i :=
    fun h => hij (Sprintf_data_d_injective h).symm
  refine ⟨Sprintf_data_d_injective, ?_, ?_⟩
  · simp [GET_mapCache, STORE_mapCache, hk]
  · simp [GET_mapCache, DELETE_mapCache, hk]

theorem key_separation_witness :
    (1 : Int) ≠ 2 ∧
      (redisRepository.GET mapCache
          (redisRepository.STORE mapCache ⟨[], [], 0, 0, 0, 0⟩
            (redisRepository.STORE mapCache ⟨[], [], 0, 0, 0, 0⟩ emptyMap 2 (bytes "b"))
            1 (bytes "a")) 2).2
        = (redisRepository.GET mapCache
            (redisRepository.STORE mapCache ⟨[], [], 0, 0, 0, 0⟩ emptyMap 2 (bytes "b")) 2).2 :=
  ⟨by decide, (key_separation ⟨[], [], 0, 0, 0, 0⟩
      (redisRepository.STORE mapCache ⟨[], [], 0, 0, 0, 0⟩ emptyMap 2 (bytes "b"))
      1 2 (bytes "a") (by decide)).2.1⟩

/-! ## The handlers -/

theorem getHandler_eq {σ : Type} (w : Nat) (c : Cache σ) (st : σ) (idParam : GoString) :
    getHandler w c st idParam =
      { state := (redisRepository.GET c st (Atoi w idParam).1).1,
        log := logIfErrNotNil (Atoi w idParam).2 (bytes "error get id from url"),
        response := Ctx.JSON (Json.string (redisRepository.GET c st (Atoi w idParam).1).2.1) } :=
  rfl

theorem postHandler_eq {σ : Type} (w : Nat) (c : Cache σ) (cfg : Config) (st : σ)
    (idParam valueParam : GoString) :
    postHandler w c cfg st idParam valueParam =
      { state := redisRepository.STORE c cfg st (Atoi w idParam).1 valueParam,
        log := logIfErrNotNil (Atoi w idParam).2 (bytes "error get id from url"),
        response := Ctx.JSON (Json.map [(bytes "status", bytes "ok")]) } :=
  rfl

theorem deleteHandler_eq {σ : Type} (w : Nat) (c : Cache σ) (st : σ) (idParam : GoString) :
    deleteHandler w c st idParam =
      { state := (redisRepository.DELETE c st (Atoi w idParam).1).1,
        log := logIfErrNotNil (Atoi w idParam).2 (bytes "error get id from url"),
        response := Ctx.JSON (Json.map [(bytes "status", bytes "ok")]) } :=
  rfl

theorem traced_Lookup {σ : Type} (c : Cache σ) (st : σ) (j : List CacheCall)
    (key : GoString) :
    (traced c).Lookup (st, j) key
      = (((c.Lookup st key).1, j ++ [CacheCall.get key]), (c.Lookup st key).2) := rfl

theorem traced_Delete {σ : Type} (c : Cache σ) (st : σ) (j : List CacheCall)
    (key : GoString) :
    (traced c).Delete (st, j) key
      = (((c.Delete st key).1, j ++ [CacheCall.delete key]), (c.Delete st key).2) := rfl

theorem getHandler_journal {σ : Type} (w : Nat) (c : Cache σ) (st : σ) (j : List CacheCall)
    (idParam : GoString) :
    (getHandler w (traced c) (st, j) idParam).state.2
      = j ++ [CacheCall.get (Sprintf_data_d (Atoi w idParam).1)] := by
  rw [getHandler_eq, GET_eq, traced_Lookup]
  generalize c.Lookup st (Sprintf_data_d (Atoi w idParam).1) = r
  obtain ⟨st', found⟩ := r
  cases found <;> rfl

theorem postHandler_journal {σ : Type} (w : Nat) (c : Cache σ) (cfg : Config) (st : σ)
    (j : List CacheCall) (idParam valueParam : GoString) :
    (postHandler w (traced c) cfg (st, j) idParam valueParam).state.2
      = j ++ [CacheCall.set { Key := Sprintf_data_d (Atoi w idParam).1,
                              Value := valueParam, TTL := cfg.RedisTTL }] := rfl

theorem deleteHandler_journal {σ : Type} (w : Nat) (c : Cache σ) (st : σ)
    (j : List CacheCall) (idParam : GoString) :
    (deleteHandler w (traced c) (st, j) idParam).state.2
      = j ++ [CacheCall.delete (Sprintf_data_d (Atoi w idParam).1)] := by
  rw [deleteHandler_eq, DELETE_eq, traced_Delete]
  generalize c.Delete st (Sprintf_data_d (Atoi w idParam).1) = r
  obtain ⟨st', err⟩ := r
  cases err with
  | none => rfl
  | some e => cases e <;> rfl

/-- C6. The POST and DELETE handlers answer 200 with the JSON object `{"status":"ok"}` for
every cache behaviour, every cache state, every configuration and every path segments:
the outcome of `STORE` or `DELETE` does not reach the response. -/
theorem post_delete_always_ok {σ : Type} (w : Nat) (c : Cache σ) (cfg : Config) (st : σ)
    (idParam valueParam : GoString) :
    (postHandler w c cfg st idParam valueParam).response
        = { status := 200, body := Json.map [(bytes "status", bytes "ok")] }
    ∧ (deleteHandler w c st idParam).response
        = { status := 200, body := Json.map [(bytes "status", bytes "ok")] } :=
  ⟨rfl, rfl⟩

/-- C7. The GET handler answers 200 with the JSON encoding of the string that
`redisRepository.GET` returned, for every cache behaviour: the found value on a hit, and
the empty string when the lookup misses or fails. -/
theorem get_handler_response {σ : Type} (w : Nat) (c : Cache σ) (st : σ)
    (idParam : GoString) :
    (getHandler w c st idParam).response
        = { status := 200,
            body := Json.string (redisRepository.GET c st (Atoi w idParam).1).2.1 }
    ∧ (getHandler w c st idParam).response
        = (match (c.Lookup st (Sprintf_data_d (Atoi w idParam).1)).2 with
            | Lookup.hit v => { status := 200, body := Json.string v }
            | Lookup.miss => { status := 200, body := Json.string [] }
            | Lookup.fail _ => { status := 200, body := Json.string [] }) := by
  refine ⟨rfl, ?_⟩
  rw [getHandler_eq, GET_eq]
  generalize c.Lookup st (Sprintf_data_d (Atoi w idParam).1) = r
  obtain ⟨st', found⟩ := r
  cases found <;> rfl

/-! ## Path segments that do not parse -/

/-- C5, as stated, fails: on a 64-bit platform the id segment `99999999999999999999` makes
`Atoi` fail, and the GET handler then asks the cache for `data_9223372036854775807`, not
for `data_0`. -/
theorem parse_failure_not_always_zero :
    ¬ (∀ idParam : GoString, (Atoi 64 idParam).2 ≠ none →
        (getHandler 64 (traced mapCache) (emptyMap, []) idParam).state.2
          = [CacheCall.get (bytes "data_0")]) := by
  intro h
  have h1 := h (bytes "99999999999999999999") (by decide)
  have h2 : (getHandler 64 (traced mapCache) (emptyMap, []) (bytes "99999999999999999999")).state.2
      = [CacheCall.get (bytes "data_9223372036854775807")] := by decide
  rw [h2] at h1
  revert h1
  decide

/-- C5, amended. When `Atoi` fails on the id segment, each of the three handlers logs the
failure and goes on to call the cache once, with the key of the value `Atoi` returned next
to the error. The error is a syntax error or a range error. After a syntax error, which
is how `Atoi` fails on the empty segment, the value is `0` and the key is `data_0`. After a range
error the segment has at least 10 bytes (32-bit `int`) or 19 bytes (64-bit `int`), the
value is `-2^(w-1)` when the segment begins with `-` and `2^(w-1) - 1` otherwise, and the
key is `data_` followed by that number. A failing digit string (optional sign, then decimal
digits) always gives a range error, and the value is the bound of `int` nearest to the
number it denotes. A segment with non-digit bytes can give a range error as well, when its
leading digits overflow first: `99999999999999999999x` does on 64 bits. -/
theorem handlers_on_parse_failure {σ : Type} (w : Nat) (hw : w = 32 ∨ w = 64) (c : Cache σ)
    (cfg : Config) (st : σ) (j : List CacheCall) (idParam valueParam : GoString)
    (e : GoError) (he : (Atoi w idParam).2 = some e) :
    (e = GoError.ErrSyntax ∨ e = GoError.ErrRange)
    ∧ (getHandler w (traced c) (st, j) idParam).log = [bytes "error get id from url"]
    ∧ (postHandler w (traced c) cfg (st, j) idParam valueParam).log
        = [bytes "error get id from url"]
    ∧ (deleteHandler w (traced c) (st, j) idParam).log = [bytes "error get id from url"]
    ∧ (e = GoError.ErrSyntax →
        (Atoi w idParam).1 = 0
        ∧ (getHandler w (traced c) (st, j) idParam).state.2
          = j ++ [CacheCall.get (bytes "data_0")]
        ∧ (postHandler w (traced c) cfg (st, j) idParam valueParam).state.2
          = j ++ [CacheCall.set
                    { Key := bytes "data_0", Value := valueParam, TTL := cfg.RedisTTL }]
        ∧ (deleteHandler w (traced c) (st, j) idParam).state.2
          = j ++ [CacheCall.delete (bytes "data_0")])
    ∧ (e = GoError.ErrRange →
        (Atoi w idParam).1
          = (if idParam.head? = some 45 then - 2 ^ (w - 1) else 2 ^ (w - 1) - 1)
        ∧ (w = 32 → 10 ≤ idParam.length)
        ∧ (w = 64 → 19 ≤ idParam.length)
        ∧ (getHandler w (traced c) (st, j) idParam).state.2
          = j ++ [CacheCall.get (Sprintf_data_d
              (if idParam.head? = some 45 then - 2 ^ (w - 1) else 2 ^ (w - 1) - 1))]
        ∧ (postHandler w (traced c) cfg (st, j) idParam valueParam).state.2
          = j ++ [CacheCall.set
              { Key := Sprintf_data_d
                  (if idParam.head? = some 45 then - 2 ^ (w - 1) else 2 ^ (w - 1) - 1),
                Value := valueParam, TTL := cfg.RedisTTL }]
        ∧ (deleteHandler w (traced c) (st, j) idParam).state.2
          = j ++ [CacheCall.delete (Sprintf_data_d
              (if idParam.head? = some 45 then - 2 ^ (w - 1) else 2 ^ (w - 1) - 1))])
    ∧ Atoi w [] = (0, some GoError.ErrSyntax)
    ∧ (isDigitString idParam = true →
        e = GoError.ErrRange
        ∧ ((2 ^ (w - 1) ≤ digitStringValue idParam ∧ (Atoi w idParam).1 = 2 ^ (w - 1) - 1)
          ∨ (digitStringValue idParam < - 2 ^ (w - 1) ∧ (Atoi w idParam).1 = - 2 ^ (w - 1))))
    ∧ (isDigitString (bytes "99999999999999999999x") = false
        ∧ Atoi 64 (bytes "99999999999999999999x")
          = (9223372036854775807, some GoError.ErrRange)) := by
  have hA : Atoi w idParam = ((Atoi w idParam).1, some e) := by rw [← he]
  have hcases := Atoi_err w hw idParam _ e hA
  have hlog : logIfErrNotNil (Atoi w idParam).2 (bytes "error get id from url")
      = [bytes "error get id from url"] := by
    rw [he]; rfl
  refine ⟨?_, ?_, ?_, ?_, ?_, ?_, ?_, ?_, by decide, by decide⟩
  · rcases hcases with h | h
    · exact Or.inl h.1
    · exact Or.inr h.1
  · rw [getHandler_eq]; exact hlog
  · rw [postHandler_eq]; exact hlog
  · rw [deleteHandler_eq]; exact hlog
  · intro hs
    have h0 : (Atoi w idParam).1 = 0 := by
      rcases hcases with h | h
      · exact h.2
      · rw [hs] at h; exact absurd h.1 (by decide)
    rw [getHandler_journal, postHandler_journal, deleteHandler_journal, h0]
    exact ⟨rfl, rfl, rfl, rfl⟩
  · intro hr
    have hv : (Atoi w idParam).1
        = (if idParam.head? = some 45 then - 2 ^ (w - 1) else 2 ^ (w - 1) - 1)
        ∧ (w = 32 → 10 ≤ idParam.length) ∧ (w = 64 → 19 ≤ idParam.length) := by
      rcases hcases with h | h
      · rw [hr] at h; exact absurd h.1 (by decide)
      · exact h.2
    refine ⟨hv.1, hv.2.1, hv.2.2, ?_, ?_, ?_⟩
    · rw [getHandler_journal, hv.1]
    · rw [postHandler_journal, hv.1]
    · rw [deleteHandler_journal, hv.1]
  · have h0 : wrapInt w 0 = 0 := by
      rcases hw with rfl | rfl <;> norm_num [wrapInt]
    unfold Atoi
    simp [ParseInt, h0]
  · intro hds
    have hdig := Atoi_digits w hw idParam hds
    by_cases hr : - 2 ^ (w - 1) ≤ digitStringValue idParam
        ∧ digitStringValue idParam < 2 ^ (w - 1)
    · rw [if_pos hr] at hdig
      rw [hdig] at he
      exact absurd he (by simp)
    · rw [if_neg hr] at hdig
      have he' : e = GoError.ErrRange := by
        rw [hdig] at he
        exact (Option.some.inj he).symm
      refine ⟨he', ?_⟩
      have hval : (Atoi w idParam).1
          = (if idParam.head? = some 45 then - 2 ^ (w - 1) else 2 ^ (w - 1) - 1) := by
        rw [hdig]
      have hpow : (0 : Int) < 2 ^ (w - 1) := by positivity
      unfold digitStringValue at hr ⊢
      by_cases h45 : idParam.head? = some 45
      · rw [if_pos h45] at hr hval ⊢
        right
        refine ⟨?_, hval⟩
        by_contra hlt
        exact hr ⟨by omega, by omega⟩
      · rw [if_neg h45] at hr hval ⊢
        left
        refine ⟨?_, hval⟩
        by_contra hlt
        exact hr ⟨by omega, by omega⟩

theorem handlers_on_parse_failure_witness :
    (((64 = 32 ∨ 64 = 64) ∧ (Atoi 64 (bytes "abc")).2 = some GoError.ErrSyntax)
      ∧ (getHandler 64 (traced mapCache) (emptyMap, []) (bytes "abc")).state.2
          = [] ++ [CacheCall.get (bytes "data_0")])
    ∧ (((64 = 32 ∨ 64 = 64)
        ∧ (Atoi 64 (bytes "-99999999999999999999")).2 = some GoError.ErrRange)
      ∧ (deleteHandler 64 (traced mapCache) (emptyMap, []) (bytes "-99999999999999999999")).state.2
          = [] ++ [CacheCall.delete (Sprintf_data_d
              (if (bytes "-99999999999999999999").head? = some 45 then - 2 ^ (64 - 1)
                else 2 ^ (64 - 1) - 1))]) :=
  ⟨⟨⟨by decide, by decide⟩,
    ((handlers_on_parse_failure 64 (by decide) mapCache ⟨[], [], 0, 0, 0, 0⟩ emptyMap []
      (bytes "abc") (bytes "v") GoError.ErrSyntax (by decide)).2.2.2.2.1 rfl).2.1⟩,
   ⟨⟨by decide, by decide⟩,
    ((handlers_on_parse_failure 64 (by decide) mapCache ⟨[], [], 0, 0, 0, 0⟩ emptyMap []
      (bytes "-99999999999999999999") (bytes "v") GoError.ErrRange
      (by decide)).2.2.2.2.2.1 rfl).2.2.2.2.2⟩⟩

/-! ## The form of the keys -/

/-- C8, as stated, fails: the id segment `-5` parses, and the GET handler asks the cache for
`data_-5`, which is not `data_` followed by the digits of a natural number. -/
theorem key_may_carry_sign :
    ¬ (∀ idParam : GoString, ∃ n : Nat,
        (getHandler 64 (traced mapCache) (emptyMap, []) idParam).state.2
          = [CacheCall.get (bytes "data_" ++ fmtNat n)]) := by
  intro h
  obtain ⟨n, hn⟩ := h (bytes "-5")
  have h2 : (getHandler 64 (traced mapCache) (emptyMap, []) (bytes "-5")).state.2
      = [CacheCall.get (bytes "data_" ++ [45, 53])] := by decide
  rw [h2] at hn
  simp only [List.cons.injEq, CacheCall.get.injEq, and_true] at hn
  have h3 : fmtNat n = [45, 53] := (List.append_cancel_left hn).symm
  have h4 := fmtNat_mem n 45 (by rw [h3]; simp)
  omega

/-- C8, amended. For every request that reaches a handler, the key passed to the cache is
`data_<id>` for the integer `id` that `Atoi` returned: `id` lies in the range of `int` and
may be negative; the key is `data_`, then a minus sign exactly when `id < 0`, then the
decimal digits of `|id|`; and `id` is negative only if the id segment begins with `-`. -/
theorem key_form {σ : Type} (w : Nat) (hw : w = 32 ∨ w = 64) (c : Cache σ) (cfg : Config)
    (st : σ) (j : List CacheCall) (idParam valueParam : GoString) :
    (- 2 ^ (w - 1) ≤ (Atoi w idParam).1 ∧ (Atoi w idParam).1 < 2 ^ (w - 1))
    ∧ ((Atoi w idParam).1 < 0 → idParam.head? = some 45)
    ∧ (∀ b ∈ fmtNat (Atoi w idParam).1.natAbs, 48 ≤ b ∧ b ≤ 57)
    ∧ fmtNat (Atoi w idParam).1.natAbs ≠ []
    ∧ (getHandler w (traced c) (st, j) idParam).state.2
        = j ++ [CacheCall.get (bytes "data_" ++
            ((if (Atoi w idParam).1 < 0 then [45] else [])
              ++ fmtNat (Atoi w idParam).1.natAbs))]
    ∧ (postHandler w (traced c) cfg (st, j) idParam valueParam).state.2
        = j ++ [CacheCall.set
            { Key := bytes "data_" ++
                ((if (Atoi w idParam).1 < 0 then [45] else [])
                  ++ fmtNat (Atoi w idParam).1.natAbs),
              Value := valueParam, TTL := cfg.RedisTTL }]
    ∧ (deleteHandler w (traced c) (st, j) idParam).state.2
        = j ++ [CacheCall.delete (bytes "data_" ++
            ((if (Atoi w idParam).1 < 0 then [45] else [])
              ++ fmtNat (Atoi w idParam).1.natAbs))] := by
  have hkey : ∀ id : Int, Sprintf_data_d id
      = bytes "data_" ++ ((if id < 0 then [45] else []) ++ fmtNat id.natAbs) := by
    intro id
    unfold Sprintf_data_d fmtInt
    split <;> rfl
  refine ⟨Atoi_in_range w hw idParam, Atoi_neg w hw idParam,
    fun b hb => fmtNat_mem _ b hb, fmtNat_ne_nil _, ?_, ?_, ?_⟩
  · rw [getHandler_journal, hkey]
  · rw [postHandler_journal, hkey]
  · rw [deleteHandler_journal, hkey]

theorem key_form_witness :
    (64 = 32 ∨ 64 = 64)
    ∧ (deleteHandler 64 (traced mapCache) (emptyMap, []) (bytes "-5")).state.2
        = [] ++ [CacheCall.delete (bytes "data_" ++
            ((if (Atoi 64 (bytes "-5")).1 < 0 then [45] else [])
              ++ fmtNat (Atoi 64 (bytes "-5")).1.natAbs))] :=
  ⟨by decide,
   (key_form 64 (by decide) mapCache ⟨[], [], 0, 0, 0, 0⟩ emptyMap [] (bytes "-5")
      (bytes "v")).2.2.2.2.2.2⟩

/-! ## Configuration defaults -/

theorem toInt_of_error (w : Nat) (s : GoString) (h : (Atoi w s).2 ≠ none) : toInt w s = 0 := by
  unfold toInt
  generalize Atoi w s = r at h
  obtain ⟨n, err⟩ := r
  exact if_pos h

theorem toInt_nil (w : Nat) : toInt w [] = 0 := by
  apply toInt_of_error
  unfold Atoi
  simp [ParseInt]

theorem toDuration_of_error (units : GoString → Bool → Duration × Option GoError)
    (s : GoString) (h : (ParseDuration units s).2 ≠ none) : toDuration units s = 0 := by
  unfold toDuration
  generalize ParseDuration units s = r at h
  obtain ⟨d, err⟩ := r
  exact if_pos h

theorem toDuration_nil (units : GoString → Bool → Duration × Option GoError) :
    toDuration units [] = 0 := by
  apply toDuration_of_error
  simp [ParseDuration, bytes]

/-- C9. `toInt(s)` is `n` when `Atoi(s)` succeeds with `n` and `0` when it fails, the empty
string included; `toDuration(s)` is `0` when `ParseDuration(s)` fails, the empty string
included; and `load()`, a total function, yields `0` for `RedisPort`, `RedisDatabase`,
`RedisPoolSize` and `RedisTTL` whenever the variable is unset or does not parse. -/
theorem config_defaults (w : Nat) (units : GoString → Bool → Duration × Option GoError)
    (dotenvErr : Option GoError) (getenv : GoString → GoString) (s : GoString) :
    (toInt w s = match Atoi w s with
        | (n, none) => n
        | (_, some _) => 0)
    ∧ (toDuration units s = match ParseDuration units s with
        | (d, none) => d
        | (_, some _) => 0)
    ∧ toInt w [] = 0
    ∧ toDuration units [] = 0
    ∧ ((getenv (bytes "RedisPort") = [] ∨ (Atoi w (getenv (bytes "RedisPort"))).2 ≠ none) →
        (load w units dotenvErr getenv).2.RedisPort = 0)
    ∧ ((getenv (bytes "RedisDatabase") = []
          ∨ (Atoi w (getenv (bytes "RedisDatabase"))).2 ≠ none) →
        (load w units dotenvErr getenv).2.RedisDatabase = 0)
    ∧ ((getenv (bytes "RedisPoolSize") = []
          ∨ (Atoi w (getenv (bytes "RedisPoolSize"))).2 ≠ none) →
        (load w units dotenvErr getenv).2.RedisPoolSize = 0)
    ∧ ((getenv (bytes "RedisTTL") = []
          ∨ (ParseDuration units (getenv (bytes "RedisTTL"))).2 ≠ none) →
        (load w units dotenvErr getenv).2.RedisTTL = 0) := by
  refine ⟨?_, ?_, toInt_nil w, toDuration_nil units, ?_, ?_, ?_, ?_⟩
  · unfold toInt
    generalize Atoi w s = r
    obtain ⟨n, err⟩ := r
    cases err <;> rfl
  · unfold toDuration
    generalize ParseDuration units s = r
    obtain ⟨d, err⟩ := r
    cases err <;> rfl
  · rintro (h | h)
    · show toInt w (getenv (bytes "RedisPort")) = 0
      rw [h]; exact toInt_nil w
    · exact toInt_of_error w _ h
  · rintro (h | h)
    · show toInt w (getenv (bytes "RedisDatabase")) = 0
      rw [h]; exact toInt_nil w
    · exact toInt_of_error w _ h
  · rintro (h | h)
    · show toInt w (getenv (bytes "RedisPoolSize")) = 0
      rw [h]; exact toInt_nil w
    · exact toInt_of_error w _ h
  · rintro (h | h)
    · show toDuration units (getenv (bytes "RedisTTL")) = 0
      rw [h]; exact toDuration_nil units
    · exact toDuration_of_error units _ h

theorem config_defaults_witness :
    ((emptyEnv (bytes "RedisPort") = []
        ∨ (Atoi 64 (emptyEnv (bytes "RedisPort"))).2 ≠ none)
      ∧ (load 64 rejectUnits none emptyEnv).2.RedisPort = 0)
    ∧ ((emptyEnv (bytes "RedisDatabase") = []
        ∨ (Atoi 64 (emptyEnv (bytes "RedisDatabase"))).2 ≠ none)
      ∧ (load 64 rejectUnits none emptyEnv).2.RedisDatabase = 0)
    ∧ ((emptyEnv (bytes "RedisPoolSize") = []
        ∨ (Atoi 64 (emptyEnv (bytes "RedisPoolSize"))).2 ≠ none)
      ∧ (load 64 rejectUnits none emptyEnv).2.RedisPoolSize = 0)
    ∧ ((emptyEnv (bytes "RedisTTL") = []
        ∨ (ParseDuration rejectUnits (emptyEnv (bytes "RedisTTL"))).2 ≠ none)
      ∧ (load 64 rejectUnits none emptyEnv).2.RedisTTL = 0) :=
  ⟨⟨Or.inl rfl, (config_defaults 64 rejectUnits none emptyEnv []).2.2.2.2.1 (Or.inl rfl)⟩,
   ⟨Or.inl rfl, (config_defaults 64 rejectUnits none emptyEnv []).2.2.2.2.2.1 (Or.inl rfl)⟩,
   ⟨Or.inl rfl, (config_defaults 64 rejectUnits none emptyEnv []).2.2.2.2.2.2.1 (Or.inl rfl)⟩,
   ⟨Or.inl rfl, (config_defaults 64 rejectUnits none emptyEnv []).2.2.2.2.2.2.2 (Or.inl rfl)⟩⟩

end GoRedisSample
